import Mathlib

/-!
Verification of the gdot-ai-commit generation pipeline.

This file gives a shallow embedding, over `List Char` strings, of the core
pipeline of the repository: the diff helpers (`crates/core/src/diff.rs`),
the sanitizer (`crates/core/src/pipeline/sanitize.rs`), the change-set
collector (`crates/core/src/pipeline/context.rs`), the generation
orchestrator (`crates/core/src/pipeline/generation.rs` and
`crates/core/src/pipeline/mod.rs`), and the backend retry loop
(`crates/core/src/providers/openai/mod.rs`, `retry.rs`,
`crates/core/src/retry.rs`).

Modelling conventions:
- Rust `String`/`&str` values are `List Char`; byte lengths are modelled as
  character counts (exact on ASCII input).
- Rust `char::is_whitespace` is modelled by `Char.isWhitespace`
  (space, tab, carriage return, newline; exact on ASCII input).
- The regex word class `\w` is modelled as ASCII alphanumeric or underscore.
- Machine integers (`u32`, `u64`, `usize`) are `Nat`; the source only adds
  and compares them with saturating operations, which `Nat` matches.
- `f32` temperature values are only carried through, never computed with;
  they are modelled as an opaque `Nat`.
- Wall-clock instants are `Nat` milliseconds; `Duration::as_secs` is
  division by 1000.
-/

namespace Gdot

/-- Rust strings are modelled as lists of characters. -/
abbrev Str := List Char

/-- The backtick character (modelled via its code point). -/
def btChar : Char := Char.ofNat 96

/-- The double-quote character (modelled via its code point). -/
def quoteChar : Char := Char.ofNat 34

/-- Drop the longest suffix whose characters satisfy `p`
(the suffix analogue of `List.dropWhile`). -/
def dropRightWhile (p : Char → Bool) : Str → Str
  | [] => []
  | c :: rest =>
    match dropRightWhile p rest with
    | [] => if p c then [] else [c]
    | r => c :: r

/-- Rust `str::trim_start`. -/
def trimLeft (s : Str) : Str := s.dropWhile Char.isWhitespace

/-- Rust `str::trim_end`. -/
def trimRight (s : Str) : Str := dropRightWhile Char.isWhitespace s

/-- Rust `str::trim`. -/
def trim (s : Str) : Str := trimRight (trimLeft s)

/-- Rust `str::trim_matches(c)`: remove every copy of `c` from both ends. -/
def trim_matches (c : Char) (s : Str) : Str :=
  dropRightWhile (· = c) (s.dropWhile (· = c))

/-- Split a string at every newline character; a string with k newlines
yields k+1 pieces (the raw splitting step behind Rust `str::lines`). -/
def splitNL : Str → List Str
  | [] => [[]]
  | c :: rest =>
    if c = '\n' then [] :: splitNL rest
    else
      match splitNL rest with
      | [] => [[c]]
      | h :: t => (c :: h) :: t

/-- Strip one trailing carriage return, as Rust `str::lines` does per line. -/
def stripCR (s : Str) : Str :=
  if s.getLast? = some '\r' then s.dropLast else s

/-- Rust `str::lines`: pieces between newlines, with the final empty piece
dropped (so the empty string has no lines) and a trailing CR stripped. -/
def rustLines (s : Str) : List Str :=
  let parts := splitNL s
  let parts := if parts.getLast? = some [] then parts.dropLast else parts
  parts.map stripCR

/-- Rust `s.lines().next().unwrap_or("")`. -/
def firstLine (s : Str) : Str := stripCR (s.takeWhile (· ≠ '\n'))

/-! ## crates/core/src/diff.rs -/

/-- One file's contribution to the prompt (`DiffFile` in `diff.rs`). -/
structure DiffFile where
  path : Str
  content : Str
  is_binary : Bool
  truncated : Bool
  additions : Nat
  deletions : Nat
  token_estimate : Nat
  deriving DecidableEq

/-- `diff_files_to_string`: join the unit contents with single newlines. -/
def diff_files_to_string (files : List DiffFile) : Str :=
  List.intercalate ['\n'] (files.map DiffFile.content)

/-- `estimate_tokens`: character count plus three, divided by four. -/
def estimate_tokens (text : Str) : Nat := (text.length + 3) / 4

/-- Loop body of `truncate_lines`: accumulate lines while the allowance
lasts; hitting a further line with no allowance returns early with the
truncated flag set. -/
def truncLinesGo : List Str → Nat → Str → Str × Bool
  | [], _, buffer => (trimRight buffer, false)
  | l :: rest, allowance, buffer =>
    match allowance with
    | 0 => (trimRight buffer, true)
    | a + 1 => truncLinesGo rest a (buffer ++ l ++ ['\n'])

/-- `truncate_lines(text, max_lines)` from `diff.rs`. -/
def truncate_lines (text : Str) (max_lines : Nat) : Str × Bool :=
  if max_lines = 0 then ([], !(trim text).isEmpty)
  else truncLinesGo (rustLines text) max_lines []

/-- Loop body of `truncate_to_tokens`: accumulate whole lines while their
summed token estimates stay within the cap. -/
def truncTokensGo (max_tokens : Nat) : List Str → Nat → Str → Str
  | [], _, buffer => trimRight buffer
  | l :: rest, count, buffer =>
    let lt := estimate_tokens l
    if max_tokens < count + lt then trimRight buffer
    else truncTokensGo max_tokens rest (count + lt) (buffer ++ l ++ ['\n'])

/-- `truncate_to_tokens(text, max_tokens)` from `diff.rs`. -/
def truncate_to_tokens (text : Str) (max_tokens : Nat) : Str :=
  truncTokensGo max_tokens (rustLines text) 0 []

/-! ## crates/core/src/config (the fields the pipeline reads)

The `EffectiveConfig` struct also carries provider-selection, staging and
push settings which the generation pipeline never reads; only the fields
consumed by the pipeline, prompts and sanitizer are modelled here. -/

structure EffectiveConfig where
  conventional : Bool
  one_line : Bool
  emoji : Bool
  lang : Option Str
  timeout_secs : Nat
  max_input_tokens : Nat
  max_output_tokens : Nat
  max_file_bytes : Nat
  max_file_lines : Nat
  summary_concurrency : Nat
  max_files : Nat
  temperature : Nat
  deriving DecidableEq

/-! ## crates/core/src/pipeline/sanitize.rs -/

/-- `trim_quotes`: trim whitespace, then strip backtick, double-quote and
backtick layers from both ends. -/
def trim_quotes (input : Str) : Str :=
  trim_matches btChar (trim_matches quoteChar (trim_matches btChar (trim input)))

def tyFeat : Str := "feat".toList
def tyFix : Str := "fix".toList
def tyBuild : Str := "build".toList
def tyChore : Str := "chore".toList
def tyCi : Str := "ci".toList
def tyDocs : Str := "docs".toList
def tyStyle : Str := "style".toList
def tyRefactor : Str := "refactor".toList
def tyPerf : Str := "perf".toList
def tyTest : Str := "test".toList

/-- The commit-type alternatives of the conventional-commit regex. -/
def commit_types : List Str :=
  [tyFeat, tyFix, tyBuild, tyChore, tyCi, tyDocs, tyStyle, tyRefactor, tyPerf, tyTest]

/-- The regex word class as used in the scope token (ASCII model of
the default Unicode-aware class). -/
def isWordChar (c : Char) : Bool := c.isAlphanum || c = '_'

/-- A scope character: word class, dot, slash or hyphen. -/
def scope_char (c : Char) : Bool := isWordChar c || c = '.' || c = '/' || c = '-'

/-- Strip the literal `pat` from the front of `s`, returning the remainder. -/
def dropLit : Str → Str → Option Str
  | [], s => some s
  | _ :: _, [] => none
  | c :: l, d :: s => if c = d then dropLit l s else none

/-- Strip the first of the given literals that is a prefix of `s`. -/
def dropAnyLit : List Str → Str → Option Str
  | [], _ => none
  | p :: ps, s =>
    match dropLit p s with
    | some r => some r
    | none => dropAnyLit ps s

/-- After the type (and optional scope): the regex demands a colon, a
space, and at least one further non-newline character. -/
def matchColonBody : Str → Bool
  | ':' :: ' ' :: c :: _ => c ≠ '\n'
  | _ => false

/-- The optional scope group: an opening parenthesis, one or more scope
characters, and a closing parenthesis; returns the remainder. -/
def matchScope : Str → Option Str
  | '(' :: rest =>
    let scope := rest.takeWhile scope_char
    let rest2 := rest.dropWhile scope_char
    if scope.isEmpty then none
    else
      match rest2 with
      | ')' :: r2 => some r2
      | _ => none
  | _ => none

/-- `conventional_regex().is_match`: the anchored pattern
`^(feat|fix|build|chore|ci|docs|style|refactor|perf|test)(\(scope\))?: .+`
as a decidable matcher. No commit type is a prefix of another, so trying
the alternatives in order is faithful to the regex. -/
def conventional_is_match (s : Str) : Bool :=
  match dropAnyLit commit_types s with
  | none => false
  | some r =>
    matchColonBody r ||
      (match matchScope r with
       | some r2 => matchColonBody r2
       | none => false)

/-- Rust `message.replace("```", "")`: scan left to right, removing each
non-overlapping occurrence of three consecutive backticks. -/
def replaceTicks3 : Str → Str
  | [] => []
  | [c] => [c]
  | [c, c2] => [c, c2]
  | c :: c2 :: c3 :: rest =>
    if c = btChar && c2 = btChar && c3 = btChar then replaceTicks3 rest
    else c :: replaceTicks3 (c2 :: c3 :: rest)

/-- Rust `message.replace('`', "")`: remove every backtick. -/
def removeTicks (s : Str) : Str := s.filter (· ≠ btChar)

/-- `sanitize_message(raw, config, fallback)` from `sanitize.rs`. -/
def sanitize_message (raw : Str) (config : EffectiveConfig) (fallback : Str) : Str :=
  let cleaned := trim_quotes raw
  let message := trim cleaned
  let message := if config.one_line then trim (firstLine message) else message
  let message := removeTicks (replaceTicks3 message)
  let message :=
    if config.conventional then
      if conventional_is_match (trim (firstLine message)) then message
      else
        match (rustLines cleaned).find? (fun l => conventional_is_match (trim l)) with
        | some found => trim found
        | none => fallback
    else message
  if message = [] then fallback else message

/-! ## crates/core/src/prompt.rs (as shipped in the repository's src/) -/

def promptHeader : Str :=
  "You are a Git commit message generator that follows the Conventional Commits specification.\n\n".toList

def promptConvTask : Str :=
  "TASK: Generate a commit message in Conventional Commits format.\nFORMAT: <type>(<scope>): <subject>\n<type> MUST be one of: feat, fix, build, chore, ci, docs, style, refactor, perf, test\n(<scope>) is optional and should be a short noun.\n".toList

def promptPlainTask : Str :=
  "TASK: Generate a concise commit message.\n".toList

def promptOneLine : Str :=
  "OUTPUT: Single line only. No body.\n".toList

def promptMultiLine : Str :=
  "OUTPUT: A short subject line, optional blank line, and short body.\n".toList

def promptEmoji : Str :=
  "If possible, prefix the subject with a relevant emoji for the change type.\n".toList

def promptRules : Str :=
  "RULES:\n- Subject must be imperative, lowercase, and concise (max 50 chars).\n- Entire message should be plain text, no markdown.\n- Do not wrap in quotes or code fences.\n- Respond with only the commit message text.\n".toList

/-- `commit_system_prompt` from `prompt.rs`. -/
def commit_system_prompt (config : EffectiveConfig) : Str :=
  promptHeader
    ++ (if config.conventional then promptConvTask else promptPlainTask)
    ++ (if config.one_line then promptOneLine else promptMultiLine)
    ++ (if config.emoji then promptEmoji else [])
    ++ promptRules

/-- `commit_user_prompt` from `prompt.rs`. -/
def commit_user_prompt (diff : Str) (config : EffectiveConfig) : Str :=
  match config.lang with
  | some lang =>
      "Generate the commit message in ".toList ++ lang ++ ".\n\nDiff:\n".toList ++ diff
  | none =>
      "Generate the commit message from this diff:\n\n".toList ++ diff

/-- `summary_system_prompt` from `prompt.rs`. -/
def summary_system_prompt : Str :=
  "You are a code reviewer summarizing diffs. Summarize the changes briefly and factually.\nRULES:\n- Use short bullet points.\n- Mention files and key changes.\n- No markdown code blocks.\n".toList

/-- `summary_user_prompt` from `prompt.rs`. -/
def summary_user_prompt (path : Str) (diff : Str) : Str :=
  "Summarize changes for ".toList ++ path ++ ":\n\n".toList ++ diff

/-! ## crates/core/src/error.rs (the variants the pipeline produces) -/

inductive CoreError where
  | git (msg : Str)
  | provider (msg : Str)
  | timeout (secs : Nat)
  | http (msg : Str)
  deriving DecidableEq

abbrev CoreResult (α : Type) := Except CoreError α

instance {ε α : Type} [DecidableEq ε] [DecidableEq α] : DecidableEq (Except ε α) :=
  fun a b =>
    match a, b with
    | .ok x, .ok y => if h : x = y then .isTrue (by rw [h]) else .isFalse (by simp [h])
    | .error x, .error y => if h : x = y then .isTrue (by rw [h]) else .isFalse (by simp [h])
    | .ok _, .error _ => .isFalse (by simp)
    | .error _, .ok _ => .isFalse (by simp)

/-- Decimal rendering of a number, for `format!` interpolations. -/
def natStr (n : Nat) : Str := (Nat.repr n).toList

/-- The `Display` rendering of a `CoreError`, as derived by `thiserror`. -/
def renderError : CoreError → Str
  | .git m => "git error: ".toList ++ m
  | .provider m => "provider error: ".toList ++ m
  | .timeout n => "timeout after ".toList ++ natStr n ++ " seconds".toList
  | .http m => m

/-! ## crates/core/src/git.rs (the two read operations the pipeline uses) -/

structure GitFileStat where
  path : Str
  additions : Nat
  deletions : Nat
  is_binary : Bool
  deriving DecidableEq

structure GitDiff where
  content : Str
  truncated : Bool
  deriving DecidableEq

/-- The git collaborator, modelled by the results of the two staged-change
read operations the pipeline performs. -/
structure GitBackend where
  staged_numstat : CoreResult (List GitFileStat)
  staged_diff_for_path : Str → Nat → CoreResult GitDiff

/-- The externally configured ignore predicate (`is_ignored`). -/
abbrev IgnoreMatcher := Str → Bool

/-! ## crates/core/src/pipeline/context.rs -/

structure DiffContext where
  all_paths : List Str
  ai_files : List DiffFile
  warnings : List Str
  deriving DecidableEq

/-- The per-path warning for an oversized diff that is omitted. -/
def warnOmitted (path : Str) (lines : Nat) : Str :=
  "diff omitted for ".toList ++ path ++ " (".toList ++ natStr lines ++ " lines)".toList

/-- The per-path warning for a truncated diff. -/
def warnTruncatedFor (path : Str) : Str :=
  "diff truncated for ".toList ++ path

/-- The single summary warning appended when the file cap stops collection. -/
def warnOnlyFirst (n : Nat) : Str :=
  "only first ".toList ++ natStr n ++ " files used for AI summary".toList

/-- The synthetic one-line placeholder content for an oversized diff. -/
def placeholderContent (path : Str) (additions deletions : Nat) : Str :=
  "file ".toList ++ path ++ " changed: +".toList ++ natStr additions
    ++ " -".toList ++ natStr deletions ++ " (diff omitted due to size)".toList

/-- The `for stat in stats` loop of `collect_diff_context`, with its
accumulated unit list and warnings and the `hit_limit` flag. -/
def collectLoop (git : GitBackend) (config : EffectiveConfig) (ignore : IgnoreMatcher) :
    List GitFileStat → List DiffFile → List Str → CoreResult (List DiffFile × List Str × Bool)
  | [], files, warns => .ok (files, warns, false)
  | stat :: rest, files, warns =>
    if config.max_files ≤ files.length then .ok (files, warns, true)
    else if stat.is_binary then collectLoop git config ignore rest files warns
    else if ignore stat.path then collectLoop git config ignore rest files warns
    else
      let change_lines := stat.additions + stat.deletions
      if config.max_file_lines < change_lines then
        let content := placeholderContent stat.path stat.additions stat.deletions
        collectLoop git config ignore rest
          (files ++ [⟨stat.path, content, false, true, stat.additions, stat.deletions,
            estimate_tokens content⟩])
          (warns ++ [warnOmitted stat.path change_lines])
      else
        match git.staged_diff_for_path stat.path config.max_file_bytes with
        | .error e => .error e
        | .ok diff =>
          let pr := truncate_lines diff.content config.max_file_lines
          let truncated := diff.truncated || pr.2
          if (trim pr.1).isEmpty then collectLoop git config ignore rest files warns
          else
            collectLoop git config ignore rest
              (files ++ [⟨stat.path, pr.1, false, truncated, stat.additions, stat.deletions,
                estimate_tokens pr.1⟩])
              (warns ++ if truncated then [warnTruncatedFor stat.path] else [])

/-- `collect_diff_context` from `context.rs`. -/
def collect_diff_context (git : GitBackend) (config : EffectiveConfig)
    (ignore : IgnoreMatcher) : CoreResult DiffContext :=
  match git.staged_numstat with
  | .error e => .error e
  | .ok stats =>
    if stats.isEmpty then .ok ⟨[], [], []⟩
    else
      let all_paths := stats.map GitFileStat.path
      match collectLoop git config ignore stats [] [] with
      | .error e => .error e
      | .ok (files, warns, hit) =>
        .ok ⟨all_paths, files,
          warns ++ if hit then [warnOnlyFirst config.max_files] else []⟩

/-! ## crates/core/src/providers (call interface) and pipeline/generation.rs -/

structure ProviderRequest where
  max_output_tokens : Nat
  temperature : Nat
  deriving DecidableEq

/-- A record of one actual backend `complete` invocation. -/
structure ProviderCall where
  system : Str
  user : Str
  request : ProviderRequest
  deriving DecidableEq

/-- One backend call's behaviour under the deadline race: the wall time the
future would need to resolve and the result it would then produce. -/
structure Fut where
  duration : Nat
  result : CoreResult Str
  deriving DecidableEq

/-- The backend, modelled by the behaviour of each successive invocation. -/
abbrev ProviderModel := Nat → Fut

/-- `Duration::as_secs` on a millisecond count. -/
def secsOf (ms : Nat) : Nat := ms / 1000

/-- `call_with_deadline` from `generation.rs`: returns the call result plus
whether the inner backend future was actually started. If the deadline has
passed the future is never polled; otherwise `tokio::time::timeout` races
it against the remaining time. -/
def call_with_deadline (now deadline : Nat) (fut : Fut) : CoreResult Str × Bool :=
  if deadline ≤ now then (.error (.timeout 0), false)
  else
    let remaining := deadline - now
    if remaining < fut.duration then (.error (.timeout (secsOf remaining)), true)
    else (fut.result, true)

/-- Execution state threaded through the orchestrator: the current instant,
the backend invocations made so far, and the next invocation index. -/
structure GenState where
  now : Nat
  calls : List ProviderCall
  idx : Nat
  deriving DecidableEq

/-- Issue one wrapped backend call. Time is modelled sequentially: a call
that resolves advances the clock by its duration, a raced-out call waits
until the deadline, and a never-started call takes no time. -/
def doCall (provider : ProviderModel) (deadline : Nat) (system user : Str)
    (req : ProviderRequest) (st : GenState) : CoreResult Str × GenState :=
  let fut := provider st.idx
  let pr := call_with_deadline st.now deadline fut
  if pr.2 then
    (pr.1, ⟨st.now + min fut.duration (deadline - st.now),
      st.calls ++ [⟨system, user, req⟩], st.idx + 1⟩)
  else (pr.1, st)

/-- The per-unit fan-out of `summarize_then_commit`. The source dispatches
these calls through `buffer_unordered` with concurrency
`max(summary_concurrency, 1)`; the fan-out is modelled as resolving in
input order (a legal schedule — no theorem below depends on completion
order or on overlap between in-flight calls). -/
def summarizeGo (provider : ProviderModel) (config : EffectiveConfig) (deadline : Nat)
    (max_file_tokens : Nat) : List DiffFile → GenState → List (Str × Option Str) × GenState
  | [], st => ([], st)
  | file :: rest, st =>
    let truncated := truncate_to_tokens file.content max_file_tokens
    if (trim truncated).isEmpty then
      let pr := summarizeGo provider config deadline max_file_tokens rest st
      ((file.path, none) :: pr.1, pr.2)
    else
      let call := doCall provider deadline summary_system_prompt
        (summary_user_prompt file.path truncated)
        ⟨config.max_output_tokens, config.temperature⟩ st
      let entry : Str × Option Str :=
        match call.1 with
        | .ok summary => (file.path, some summary)
        | .error _ => (file.path, none)
      let pr := summarizeGo provider config deadline max_file_tokens rest call.2
      (entry :: pr.1, pr.2)

/-- `summarize_then_commit` from `generation.rs`. -/
def summarize_then_commit (provider : ProviderModel) (config : EffectiveConfig)
    (files : List DiffFile) (deadline : Nat) (st : GenState) : CoreResult Str × GenState :=
  let max_file_tokens := min config.max_input_tokens 2000
  let pr := summarizeGo provider config deadline max_file_tokens files st
  let combined := pr.1.filterMap (fun e => e.2.map (fun s => e.1 ++ ": ".toList ++ trim s))
  if combined.isEmpty then (.ok [], pr.2)
  else
    let combined_text := List.intercalate ['\n'] combined
    let combined_text :=
      if config.max_input_tokens < estimate_tokens combined_text then
        truncate_to_tokens combined_text config.max_input_tokens
      else combined_text
    doCall provider deadline (commit_system_prompt config)
      (commit_user_prompt combined_text config)
      ⟨config.max_output_tokens, config.temperature⟩ pr.2

/-- `generate_with_provider` from `generation.rs`: single-shot when the
summed token estimates fit the input budget, hierarchical summarization
otherwise. -/
def generate_with_provider (provider : ProviderModel) (config : EffectiveConfig)
    (files : List DiffFile) (deadline : Nat) (st : GenState) : CoreResult Str × GenState :=
  let total_tokens := (files.map DiffFile.token_estimate).sum
  if total_tokens ≤ config.max_input_tokens then
    doCall provider deadline (commit_system_prompt config)
      (commit_user_prompt (diff_files_to_string files) config)
      ⟨config.max_output_tokens, config.temperature⟩ st
  else summarize_then_commit provider config files deadline st

/-! ## crates/core/src/pipeline/mod.rs -/

structure PipelineOutcome where
  message : Str
  used_fallback : Bool
  warnings : List Str
  deriving DecidableEq

inductive PipelineResult where
  | noChanges
  | message (outcome : PipelineOutcome)
  deriving DecidableEq

def litUpdateFiles : Str := "update files".toList
def litUpdate : Str := "update ".toList
def litCommaSep : Str := ", ".toList
def litChoreColon : Str := "chore: ".toList

/-- `fallback_message(paths, config)` from `pipeline/mod.rs`. -/
def fallback_message (paths : List Str) (config : EffectiveConfig) : Str :=
  let subject :=
    if paths.isEmpty then litUpdateFiles
    else litUpdate ++ List.intercalate litCommaSep (paths.take 3)
  let subject := if 50 < subject.length then subject.take 50 else subject
  if config.conventional then litChoreColon ++ subject else subject

def warnNoUsable : Str := "no usable diff for AI; using fallback".toList
def warnProviderUnavailable : Str := "provider unavailable, using fallback".toList

/-- The warning pushed when provider generation fails. -/
def warnGenFailed (e : CoreError) : Str :=
  "ai generation failed, using fallback: ".toList ++ renderError e

def initGenState (now : Nat) : GenState := ⟨now, [], 0⟩

/-- The common tail of `generate_commit_message`: sanitize the raw or
substituted message against the fallback and mark `used_fallback` exactly
when the cleaned message equals the fallback. -/
def finishOutcome (message : Str) (config : EffectiveConfig) (fallback : Str)
    (warnings : List Str) (st : GenState) : CoreResult (PipelineResult × GenState) :=
  .ok (.message ⟨sanitize_message message config fallback,
    sanitize_message message config fallback == fallback, warnings⟩, st)

/-- `generate_commit_message` from `pipeline/mod.rs`, returning the
pipeline result together with the orchestrator execution state. -/
def generate_commit_message (git : GitBackend) (provider : Option ProviderModel)
    (config : EffectiveConfig) (ignore : IgnoreMatcher) (now : Nat) :
    CoreResult (PipelineResult × GenState) :=
  match collect_diff_context git config ignore with
  | .error e => .error e
  | .ok ctx =>
    if ctx.all_paths.isEmpty then .ok (.noChanges, initGenState now)
    else if ctx.ai_files.isEmpty then
      .ok (.message ⟨fallback_message ctx.all_paths config, true,
        ctx.warnings ++ [warnNoUsable]⟩, initGenState now)
    else
      match provider with
      | some p =>
        match generate_with_provider p config ctx.ai_files
            (now + config.timeout_secs * 1000) (initGenState now) with
        | (.ok m, st) =>
          finishOutcome m config (fallback_message ctx.all_paths config) ctx.warnings st
        | (.error e, st) =>
          finishOutcome (fallback_message ctx.all_paths config) config
            (fallback_message ctx.all_paths config)
            (ctx.warnings ++ [warnGenFailed e]) st
      | none =>
        finishOutcome (fallback_message ctx.all_paths config) config
          (fallback_message ctx.all_paths config)
          (ctx.warnings ++ [warnProviderUnavailable]) (initGenState now)

/-! ## crates/core/src/providers/openai (retry loop) and crates/core/src/retry.rs -/

/-- Parsed JSON values are opaque to the retry logic. -/
abbrev Val := Nat

structure HttpResponse where
  status : Nat
  body : Str
  parsed : Except Str Val
  deriving DecidableEq

/-- The result of one `send()` attempt: a network-level failure or an HTTP
response (whose body-parse outcome matters only on success statuses). -/
inductive SendOutcome where
  | sendFailed (msg : Str)
  | got (resp : HttpResponse)
  deriving DecidableEq

def status_is_success (s : Nat) : Bool := 200 ≤ s && s < 300

def is_server_error (s : Nat) : Bool := 500 ≤ s && s < 600

/-- `should_retry` from `providers/openai/retry.rs`. -/
def should_retry (status : Nat) : Bool :=
  status = 429 || is_server_error status || status = 408

/-- `backoff_delay(attempt, base_delay_ms, max_delay_ms)` from `retry.rs`,
with the sampled jitter (`thread_rng().gen_range(0..=base_delay_ms)`)
supplied as `jitterVal`. -/
def backoff_delay (attempt : Nat) (base_delay_ms max_delay_ms : Nat) (jitterVal : Nat) : Nat :=
  let exp := 2 ^ attempt
  let base := min (base_delay_ms * exp) max_delay_ms
  base + jitterVal

def openaiErrBody (status : Nat) (body : Str) : Str :=
  "openai error ".toList ++ natStr status ++ ": ".toList ++ body

def openaiReqFailed (msg : Str) : Str :=
  "openai request failed: ".toList ++ msg

def openaiReqFailedBare : Str := "openai request failed".toList

/-- The `while attempt < max_attempts` loop of `send_with_retries`,
returning the result, the number of send attempts made, and the backoff
delays slept. `jitter i` is the jitter sampled before retry `i`. -/
def sendGo (outcomes : Nat → SendOutcome) (jitter : Nat → Nat) :
    Nat → Nat → Option CoreError → CoreResult Val × Nat × List Nat
  | _, 0, lastErr => (.error (lastErr.getD (.provider openaiReqFailedBare)), 0, [])
  | attempt, r + 1, _ =>
    match outcomes attempt with
    | .got resp =>
      if status_is_success resp.status then
        match resp.parsed with
        | .ok v => (.ok v, 1, [])
        | .error m => (.error (.http m), 1, [])
      else
        let err := CoreError.provider (openaiErrBody resp.status resp.body)
        if should_retry resp.status then
          let d := backoff_delay attempt 200 2000 (jitter attempt)
          let pr := sendGo outcomes jitter (attempt + 1) r (some err)
          (pr.1, pr.2.1 + 1, d :: pr.2.2)
        else (.error err, 1, [])
    | .sendFailed msg =>
      let err := CoreError.provider (openaiReqFailed msg)
      let d := backoff_delay attempt 200 2000 (jitter attempt)
      let pr := sendGo outcomes jitter (attempt + 1) r (some err)
      (pr.1, pr.2.1 + 1, d :: pr.2.2)

/-- `send_with_retries` from `providers/openai/mod.rs`: up to 3 attempts. -/
def send_with_retries (outcomes : Nat → SendOutcome) (jitter : Nat → Nat) :
    CoreResult Val × Nat × List Nat :=
  sendGo outcomes jitter 0 3 none

/-! ## General lemmas about the string helpers -/

theorem dropWhile_head_false {p : Char → Bool} {a : Char} :
    ∀ {l : Str}, (l.dropWhile p).head? = some a → p a = false := by
  intro l
  induction l with
  | nil => intro h; simp [List.dropWhile] at h
  | cons c rest ih =>
    intro h
    by_cases hc : p c
    · exact ih (by simpa [List.dropWhile, hc] using h)
    · simp [List.dropWhile, hc] at h
      subst h
      simpa using hc

theorem dropWhile_eq_self_of_head {p : Char → Bool} {l : Str} {a : Char}
    (h : l.head? = some a) (ha : p a = false) : l.dropWhile p = l := by
  cases l with
  | nil => rfl
  | cons c rest =>
    simp at h
    subst h
    simp [List.dropWhile, ha]

theorem mem_of_mem_dropWhile {p : Char → Bool} {a : Char} :
    ∀ {l : Str}, a ∈ l.dropWhile p → a ∈ l := by
  intro l
  induction l with
  | nil => intro h; simpa [List.dropWhile] using h
  | cons c rest ih =>
    intro h
    by_cases hc : p c
    · exact List.mem_cons_of_mem c (ih (by simpa [List.dropWhile, hc] using h))
    · simpa [List.dropWhile, hc] using h

theorem dropWhile_eq_self_of_all {p : Char → Bool} {l : Str}
    (h : ∀ a ∈ l, p a = false) : l.dropWhile p = l := by
  cases l with
  | nil => rfl
  | cons c rest => simp [List.dropWhile, h c (List.mem_cons_self c rest)]

theorem mem_of_mem_dropRightWhile {p : Char → Bool} {a : Char} :
    ∀ {l : Str}, a ∈ dropRightWhile p l → a ∈ l := by
  intro l
  induction l with
  | nil => intro h; simpa [dropRightWhile] using h
  | cons c rest ih =>
    intro h
    rw [dropRightWhile] at h
    cases hr : dropRightWhile p rest with
    | nil =>
      rw [hr] at h
      by_cases hc : p c
      · simp [hc] at h
      · simp [hc] at h; simp [h]
    | cons x xs =>
      rw [hr] at h
      rcases List.mem_cons.mp h with h | h
      · simp [h]
      · exact List.mem_cons_of_mem c (ih (by rw [hr]; exact h))

theorem dropRightWhile_eq_self_of_all {p : Char → Bool} :
    ∀ {l : Str}, (∀ a ∈ l, p a = false) → dropRightWhile p l = l := by
  intro l
  induction l with
  | nil => intro _; rfl
  | cons c rest ih =>
    intro h
    rw [dropRightWhile]
    rw [ih (fun a ha => h a (List.mem_cons_of_mem c ha))]
    cases rest with
    | nil => simp [h c (List.mem_cons_self c [])]
    | cons x xs => rfl

theorem dropRightWhile_idem {p : Char → Bool} :
    ∀ {l : Str}, dropRightWhile p (dropRightWhile p l) = dropRightWhile p l := by
  intro l
  induction l with
  | nil => rfl
  | cons c rest ih =>
    rw [dropRightWhile]
    cases hr : dropRightWhile p rest with
    | nil =>
      by_cases hc : p c
      · simp [hc, dropRightWhile]
      · simp [hc, dropRightWhile]
    | cons x xs =>
      rw [dropRightWhile]
      rw [hr] at ih
      rw [ih]

theorem dropRightWhile_head? {p : Char → Bool} :
    ∀ {l : Str}, dropRightWhile p l = [] ∨ (dropRightWhile p l).head? = l.head? := by
  intro l
  cases l with
  | nil => exact Or.inl rfl
  | cons c rest =>
    rw [dropRightWhile]
    cases hr : dropRightWhile p rest with
    | nil =>
      by_cases hc : p c
      · exact Or.inl (by simp [hc])
      · exact Or.inr (by simp [hc])
    | cons x xs => exact Or.inr rfl

theorem dropRightWhile_getLast_false {p : Char → Bool} {a : Char} :
    ∀ {l : Str}, (dropRightWhile p l).getLast? = some a → p a = false := by
  intro l
  induction l with
  | nil => intro h; simp [dropRightWhile] at h
  | cons c rest ih =>
    intro h
    rw [dropRightWhile] at h
    cases hr : dropRightWhile p rest with
    | nil =>
      rw [hr] at h
      by_cases hc : p c
      · simp [hc] at h
      · simp [hc] at h; subst h; simpa using hc
    | cons x xs =>
      rw [hr] at h
      rw [List.getLast?_cons_cons] at h
      exact ih (hr ▸ h)

theorem dropRightWhile_append_elem {p : Char → Bool} {c : Char} (hc : p c = true) :
    ∀ (l : Str), dropRightWhile p (l ++ [c]) = dropRightWhile p l := by
  intro l
  induction l with
  | nil => simp [dropRightWhile, hc]
  | cons x xs ih =>
    rw [List.cons_append, dropRightWhile, ih, dropRightWhile]

theorem mem_of_mem_trim {a : Char} {s : Str} (h : a ∈ trim s) : a ∈ s :=
  mem_of_mem_dropWhile (mem_of_mem_dropRightWhile h)

theorem trim_head_false {s : Str} {a : Char}
    (h : (trim s).head? = some a) : a.isWhitespace = false := by
  unfold trim trimRight trimLeft at h
  rcases dropRightWhile_head? (p := Char.isWhitespace)
      (l := s.dropWhile Char.isWhitespace) with he | hh
  · rw [he] at h; simp at h
  · exact dropWhile_head_false (hh ▸ h)

theorem trim_getLast_false {s : Str} {a : Char}
    (h : (trim s).getLast? = some a) : a.isWhitespace = false :=
  dropRightWhile_getLast_false h

theorem trim_idem (s : Str) : trim (trim s) = trim s := by
  unfold trim trimRight trimLeft
  cases hh : ((dropRightWhile Char.isWhitespace
      (s.dropWhile Char.isWhitespace)).head?) with
  | none =>
    rw [List.head?_eq_none_iff] at hh
    rw [hh]
    rfl
  | some a =>
    have ha : a.isWhitespace = false := trim_head_false (s := s) (by
      unfold trim trimRight trimLeft
      exact hh)
    rw [dropWhile_eq_self_of_head hh ha]
    exact dropRightWhile_idem

theorem trim_eq_self_of_clean {s : Str}
    (h : ∀ a ∈ s, a.isWhitespace = false) : trim s = s := by
  unfold trim trimRight trimLeft
  rw [dropWhile_eq_self_of_all h, dropRightWhile_eq_self_of_all h]

theorem trim_matches_eq_self {c : Char} {s : Str} (h : c ∉ s) :
    trim_matches c s = s := by
  unfold trim_matches
  have hall : ∀ a ∈ s, (a = c : Bool) = false := by
    intro a ha
    simp only [decide_eq_false_iff_not]
    intro he
    exact h (he ▸ ha)
  rw [dropWhile_eq_self_of_all hall, dropRightWhile_eq_self_of_all hall]

theorem mem_of_mem_trim_matches {c : Char} {a : Char} {s : Str}
    (h : a ∈ trim_matches c s) : a ∈ s :=
  mem_of_mem_dropWhile (mem_of_mem_dropRightWhile h)

theorem mem_of_mem_trim_quotes {a : Char} {s : Str} (h : a ∈ trim_quotes s) : a ∈ s :=
  mem_of_mem_trim
    (mem_of_mem_trim_matches (mem_of_mem_trim_matches (mem_of_mem_trim_matches h)))

theorem trim_quotes_eq_trim_of_clean {s : Str}
    (hb : btChar ∉ s) (hq : quoteChar ∉ s) : trim_quotes s = trim s := by
  unfold trim_quotes
  have hb1 : btChar ∉ trim s := fun h => hb (mem_of_mem_trim h)
  rw [trim_matches_eq_self hb1]
  have hq1 : quoteChar ∉ trim s := fun h => hq (mem_of_mem_trim h)
  rw [trim_matches_eq_self hq1, trim_matches_eq_self hb1]

theorem mem_of_mem_takeWhile {p : Char → Bool} {a : Char} :
    ∀ {l : Str}, a ∈ l.takeWhile p → a ∈ l := by
  intro l
  induction l with
  | nil => intro h; simpa [List.takeWhile] using h
  | cons c rest ih =>
    intro h
    by_cases hc : p c
    · rw [List.takeWhile_cons_of_pos hc] at h
      rcases List.mem_cons.mp h with h | h
      · simp [h]
      · exact List.mem_cons_of_mem c (ih h)
    · rw [List.takeWhile_cons_of_neg hc] at h
      simp at h

theorem takeWhile_mem_sat {p : Char → Bool} {a : Char} :
    ∀ {l : Str}, a ∈ l.takeWhile p → p a = true := by
  intro l
  induction l with
  | nil => intro h; simpa [List.takeWhile] using h
  | cons c rest ih =>
    intro h
    by_cases hc : p c
    · rw [List.takeWhile_cons_of_pos hc] at h
      rcases List.mem_cons.mp h with h | h
      · exact h ▸ hc
      · exact ih h
    · rw [List.takeWhile_cons_of_neg hc] at h
      simp at h

theorem takeWhile_eq_self_of_all {p : Char → Bool} :
    ∀ {l : Str}, (∀ a ∈ l, p a = true) → l.takeWhile p = l := by
  intro l
  induction l with
  | nil => intro _; rfl
  | cons c rest ih =>
    intro h
    rw [List.takeWhile_cons_of_pos (h c (List.mem_cons_self c rest))]
    rw [ih (fun a ha => h a (List.mem_cons_of_mem c ha))]

theorem mem_of_mem_stripCR {a : Char} {s : Str} (h : a ∈ stripCR s) : a ∈ s := by
  unfold stripCR at h
  by_cases hl : s.getLast? = some '\r'
  · rw [if_pos hl] at h
    exact List.dropLast_subset s h
  · rwa [if_neg hl] at h

theorem stripCR_eq_self {s : Str} (h : s.getLast? ≠ some '\r') : stripCR s = s := by
  unfold stripCR
  rw [if_neg h]

theorem mem_of_mem_firstLine {a : Char} {s : Str} (h : a ∈ firstLine s) : a ∈ s :=
  mem_of_mem_takeWhile (mem_of_mem_stripCR h)

theorem firstLine_no_nl {s : Str} : '\n' ∉ firstLine s := by
  intro h
  have := takeWhile_mem_sat (mem_of_mem_stripCR h)
  simp at this

theorem firstLine_eq_self {s : Str} (hnl : '\n' ∉ s)
    (hcr : s.getLast? ≠ some '\r') : firstLine s = s := by
  unfold firstLine
  have hall : ∀ a ∈ s, (a ≠ '\n' : Bool) = true := by
    intro a ha
    have hne : a ≠ '\n' := fun he => hnl (he ▸ ha)
    exact decide_eq_true hne
  rw [takeWhile_eq_self_of_all hall, stripCR_eq_self hcr]

theorem trim_getLast_ne_cr {s : Str} (h : trim s = s) : s.getLast? ≠ some '\r' := by
  intro hl
  have := trim_getLast_false (s := s) (h ▸ hl)
  simp [Char.isWhitespace] at this

theorem mem_of_mem_removeTicks {a : Char} {s : Str} (h : a ∈ removeTicks s) : a ∈ s :=
  (List.mem_filter.mp h).1

theorem removeTicks_no_tick {s : Str} : btChar ∉ removeTicks s := by
  intro h
  have := (List.mem_filter.mp h).2
  simp at this

theorem removeTicks_eq_self {s : Str} (h : btChar ∉ s) : removeTicks s = s := by
  unfold removeTicks
  rw [List.filter_eq_self]
  intro a ha
  simp only [decide_eq_true_eq]
  intro he
  exact h (he ▸ ha)

theorem replaceTicks3_eq_self : ∀ {s : Str}, btChar ∉ s → replaceTicks3 s = s := by
  intro s
  induction s using replaceTicks3.induct with
  | case1 => intro _; rfl
  | case2 c => intro _; rfl
  | case3 c c2 => intro _; rfl
  | case4 c c2 c3 rest hcond ih =>
    intro h
    exfalso
    rcases Bool.and_eq_true_iff.mp hcond with ⟨h1, _⟩
    rcases Bool.and_eq_true_iff.mp h1 with ⟨hc, _⟩
    exact h (by simp [decide_eq_true_eq.mp hc])
  | case5 c c2 c3 rest hcond ih =>
    intro h
    rw [replaceTicks3, if_neg (by simpa using hcond)]
    rw [ih (fun hm => h (List.mem_cons_of_mem c hm))]

theorem mem_of_mem_replaceTicks3 {a : Char} :
    ∀ {s : Str}, a ∈ replaceTicks3 s → a ∈ s := by
  intro s
  induction s using replaceTicks3.induct with
  | case1 => intro h; simpa [replaceTicks3] using h
  | case2 c => intro h; simpa [replaceTicks3] using h
  | case3 c c2 => intro h; simpa [replaceTicks3] using h
  | case4 c c2 c3 rest hcond ih =>
    intro h
    rw [replaceTicks3, if_pos hcond] at h
    exact List.mem_cons_of_mem c (List.mem_cons_of_mem c2 (List.mem_cons_of_mem c3 (ih h)))
  | case5 c c2 c3 rest hcond ih =>
    intro h
    rw [replaceTicks3, if_neg (by simpa using hcond)] at h
    rcases List.mem_cons.mp h with h | h
    · simp [h]
    · exact List.mem_cons_of_mem c (ih h)

theorem splitNL_ne_nil : ∀ (s : Str), splitNL s ≠ [] := by
  intro s
  cases s with
  | nil => simp [splitNL]
  | cons c rest =>
    rw [splitNL]
    by_cases hc : c = '\n'
    · simp [hc]
    · rw [if_neg hc]
      cases splitNL rest with
      | nil => simp
      | cons h t => simp

theorem splitNL_chars : ∀ {s : Str} {part : Str}, part ∈ splitNL s →
    ∀ {a : Char}, a ∈ part → a ∈ s ∧ a ≠ '\n' := by
  intro s
  induction s with
  | nil =>
    intro part hp a ha
    simp [splitNL] at hp
    subst hp
    simp at ha
  | cons c rest ih =>
    intro part hp a ha
    rw [splitNL] at hp
    by_cases hc : c = '\n'
    · rw [if_pos hc] at hp
      rcases List.mem_cons.mp hp with h | h
      · subst h; simp at ha
      · rcases ih h ha with ⟨h1, h2⟩
        exact ⟨List.mem_cons_of_mem c h1, h2⟩
    · rw [if_neg hc] at hp
      cases hr : splitNL rest with
      | nil => exact absurd hr (splitNL_ne_nil rest)
      | cons hd tl =>
        rw [hr] at hp
        rcases List.mem_cons.mp hp with h | h
        · subst h
          rcases List.mem_cons.mp ha with h | h
          · subst h; exact ⟨List.mem_cons_self a rest, hc⟩
          · rcases ih (hr ▸ List.mem_cons_self hd tl) h with ⟨h1, h2⟩
            exact ⟨List.mem_cons_of_mem c h1, h2⟩
        · rcases ih (hr ▸ List.mem_cons_of_mem hd h) ha with ⟨h1, h2⟩
          exact ⟨List.mem_cons_of_mem c h1, h2⟩

theorem rustLines_chars {s l : Str} (hl : l ∈ rustLines s) :
    ∀ {a : Char}, a ∈ l → a ∈ s ∧ a ≠ '\n' := by
  intro a ha
  unfold rustLines at hl
  rcases List.mem_map.mp hl with ⟨part, hpart, hmap⟩
  have hm : a ∈ part := mem_of_mem_stripCR (by rw [hmap]; exact ha)
  by_cases hlast : (splitNL s).getLast? = some ([] : Str)
  · rw [if_pos hlast] at hpart
    exact splitNL_chars (List.dropLast_subset _ hpart) hm
  · rw [if_neg hlast] at hpart
    exact splitNL_chars hpart hm

theorem splitNL_append_of_no_nl {l : Str} (hl : '\n' ∉ l) :
    ∀ (r : Str), splitNL (l ++ '\n' :: r) = l :: splitNL r := by
  induction l with
  | nil => intro r; simp [splitNL]
  | cons c t ih =>
    intro r
    have hc : c ≠ '\n' := fun h => hl (h ▸ List.mem_cons_self c t)
    rw [List.cons_append, splitNL, if_neg hc,
      ih (fun h => hl (List.mem_cons_of_mem c h)) r]

theorem splitNL_of_no_nl {s : Str} (h : '\n' ∉ s) : splitNL s = [s] := by
  induction s with
  | nil => rfl
  | cons c t ih =>
    have hc : c ≠ '\n' := fun he => h (he ▸ List.mem_cons_self c t)
    rw [splitNL, if_neg hc, ih (fun hm => h (List.mem_cons_of_mem c hm))]

theorem mem_of_getLast?_eq {l : Str} {a : Char} (h : l.getLast? = some a) : a ∈ l := by
  rcases List.mem_getLast?_eq_getLast (Option.mem_def.mpr h) with ⟨hne, heq⟩
  rw [heq]
  exact List.getLast_mem hne

theorem stripCR_eq_self_of_no_cr {s : Str} (h : '\r' ∉ s) : stripCR s = s :=
  stripCR_eq_self (fun hl => h (mem_of_getLast?_eq hl))

/-! ## Claim theorems -/

/-- C3: for every backend call the deadline wrapper `call_with_deadline`
behaves as follows: if the absolute deadline has already passed at call
time it fails immediately with a `Timeout` error carrying zero remaining
seconds, without starting the backend future; otherwise the call is raced
against the remaining time and, on expiry, fails with a `Timeout` error
carrying the remaining-seconds value computed at dispatch, while a call
that resolves within the remaining time returns its own result. -/
theorem call_with_deadline_spec (now deadline : Nat) (fut : Fut) :
    (deadline ≤ now →
      call_with_deadline now deadline fut = (.error (.timeout 0), false))
    ∧ (now < deadline → deadline - now < fut.duration →
      call_with_deadline now deadline fut =
        (.error (.timeout (secsOf (deadline - now))), true))
    ∧ (now < deadline → fut.duration ≤ deadline - now →
      call_with_deadline now deadline fut = (fut.result, true)) := by
  refine ⟨fun h => ?_, fun h1 h2 => ?_, fun h1 h2 => ?_⟩
  · simp [call_with_deadline, h]
  · simp [call_with_deadline, Nat.not_le.mpr h1, h2]
  · simp [call_with_deadline, Nat.not_le.mpr h1, Nat.not_lt.mpr h2]

/-- Witness for C3 at concrete instants: an expired deadline, a raced-out
call (2500 ms remaining reported as 2 s), and a call that resolves. -/
theorem call_with_deadline_spec_witness :
    call_with_deadline 7 5 ⟨100, .ok []⟩ = (.error (.timeout 0), false)
    ∧ call_with_deadline 0 2500 ⟨3000, .ok []⟩ = (.error (.timeout 2), true)
    ∧ call_with_deadline 0 2500 ⟨1000, .ok ['a']⟩ = (.ok ['a'], true) :=
  ⟨(call_with_deadline_spec 7 5 ⟨100, .ok []⟩).1 (by decide),
   (call_with_deadline_spec 0 2500 ⟨3000, .ok []⟩).2.1 (by decide) (by decide),
   (call_with_deadline_spec 0 2500 ⟨1000, .ok ['a']⟩).2.2 (by decide) (by decide)⟩

/-- The subject the fallback synthesizer builds: `update <p1>, <p2>, <p3>`
from at most the first three paths (`update files` when there are none),
truncated to 50 characters. -/
def fallbackSubject (paths : List Str) : Str :=
  List.take 50
    (if paths.isEmpty then litUpdateFiles
     else litUpdate ++ List.intercalate litCommaSep (paths.take 3))

/-- C6: for every list of paths and every configuration, the fallback
message is built from at most the first three paths (`update files` when
the list is empty), its subject is truncated to at most 50 characters, and
`chore: ` is prefixed exactly when the conventional policy is set. -/
theorem fallback_message_spec (paths : List Str) (config : EffectiveConfig) :
    fallback_message paths config =
      (if config.conventional then litChoreColon ++ fallbackSubject paths
       else fallbackSubject paths)
    ∧ (fallbackSubject paths).length ≤ 50
    ∧ fallbackSubject paths =
        List.take 50
          (if paths.isEmpty then litUpdateFiles
           else litUpdate ++ List.intercalate litCommaSep (paths.take 3)) := by
  refine ⟨?_, List.length_take_le 50 _, rfl⟩
  unfold fallback_message fallbackSubject
  by_cases h : 50 <
      (if paths.isEmpty then litUpdateFiles
       else litUpdate ++ List.intercalate litCommaSep (paths.take 3)).length
  · simp only [if_pos h]
  · simp only [if_neg h,
      List.take_of_length_le (Nat.le_of_not_lt h)]

/-- C9 counterexample: the claim asserts that a zero-line limit on any
non-empty text yields the truncated flag `true`, but on the non-empty
whitespace-only text `" "` the code returns the flag `false` (it reports
truncation only when the trimmed text is non-empty). -/
theorem truncate_lines_counterexample :
    ([' '] : Str) ≠ [] ∧ truncate_lines [' '] 0 = ([], false) := by
  refine ⟨by decide, by decide⟩

/-- C9 (amended): truncating a 3-line text to 2 lines yields the first two
lines joined by a newline with trailing whitespace trimmed, and the
truncated flag `true`; a zero-line limit yields empty output with the flag
`true` when the text has non-whitespace content and `false` otherwise. -/
theorem truncate_lines_spec :
    (∀ l1 l2 l3 : Str, '\n' ∉ l1 → '\n' ∉ l2 → '\n' ∉ l3 →
      '\r' ∉ l1 → '\r' ∉ l2 → l3 ≠ [] →
      truncate_lines (l1 ++ '\n' :: l2 ++ '\n' :: l3) 2 =
        (trimRight (l1 ++ '\n' :: l2), true))
    ∧ (∀ t : Str, trim t ≠ [] → truncate_lines t 0 = ([], true))
    ∧ (∀ t : Str, trim t = [] → truncate_lines t 0 = ([], false)) := by
  refine ⟨?_, ?_, ?_⟩
  · intro l1 l2 l3 h1 h2 h3 hr1 hr2 h3ne
    have e1 : l1 ++ '\n' :: l2 ++ '\n' :: l3 = l1 ++ '\n' :: (l2 ++ '\n' :: l3) := by
      simp
    have hsplit : splitNL (l1 ++ '\n' :: l2 ++ '\n' :: l3) = [l1, l2, l3] := by
      rw [e1, splitNL_append_of_no_nl h1, splitNL_append_of_no_nl h2,
        splitNL_of_no_nl h3]
    have hlines : rustLines (l1 ++ '\n' :: l2 ++ '\n' :: l3) = [l1, l2, stripCR l3] := by
      unfold rustLines
      rw [hsplit]
      simp [h3ne, stripCR_eq_self_of_no_cr hr1, stripCR_eq_self_of_no_cr hr2]
    unfold truncate_lines
    rw [if_neg (by decide : ¬(2 = 0))]
    rw [hlines]
    show (trimRight ((([] ++ l1 ++ ['\n']) ++ l2) ++ ['\n']), true) =
      (trimRight (l1 ++ '\n' :: l2), true)
    have e2 : (([] ++ l1 ++ ['\n']) ++ l2) ++ ['\n'] = (l1 ++ '\n' :: l2) ++ ['\n'] := by
      simp
    rw [e2]
    unfold trimRight
    rw [dropRightWhile_append_elem (by decide : ('\n').isWhitespace = true)]
  · intro t ht
    unfold truncate_lines
    rw [if_pos rfl]
    simp only [Prod.mk.injEq, true_and]
    simp [List.isEmpty_iff, ht]
  · intro t ht
    unfold truncate_lines
    rw [if_pos rfl]
    simp only [Prod.mk.injEq, true_and]
    simp [List.isEmpty_iff, ht]

theorem call_with_deadline_invoked {now deadline : Nat} (h : now < deadline) (fut : Fut) :
    (call_with_deadline now deadline fut).2 = true := by
  unfold call_with_deadline
  rw [if_neg (Nat.not_le.mpr h)]
  by_cases h2 : deadline - now < fut.duration <;> simp [h2]

/-- C1: when the summed token estimates of the change units fit within
`max_input_tokens`, `generate_with_provider` takes the single-shot path
and issues exactly one backend call, whose prompt body is the
concatenation of all unit contents in collector order (joined by
newlines via `diff_files_to_string`). -/
theorem single_shot_one_call (provider : ProviderModel) (config : EffectiveConfig)
    (files : List DiffFile) (deadline now : Nat)
    (hfit : (files.map DiffFile.token_estimate).sum ≤ config.max_input_tokens)
    (hlive : now < deadline) :
    (generate_with_provider provider config files deadline (initGenState now)).2.calls =
      [⟨commit_system_prompt config,
        commit_user_prompt (diff_files_to_string files) config,
        ⟨config.max_output_tokens, config.temperature⟩⟩]
    ∧ diff_files_to_string files = List.intercalate ['\n'] (files.map DiffFile.content) := by
  constructor
  · simp only [generate_with_provider, initGenState]
    rw [if_pos hfit]
    simp only [doCall]
    rw [call_with_deadline_invoked hlive]
    simp
  · rfl

def exCfgConv : EffectiveConfig :=
  ⟨true, true, false, none, 20, 6000, 2048, 200000, 2000, 4, 40, 2⟩

def exProvOk : ProviderModel := fun _ => ⟨0, .ok ['o', 'k']⟩

def exFileA : DiffFile := ⟨['a'], ['+', 'x'], false, false, 1, 0, 1⟩

/-- Witness for C1: a one-unit change set whose single token estimate fits
the default budget issues exactly the one single-shot call. -/
theorem single_shot_one_call_witness :
    (generate_with_provider exProvOk exCfgConv [exFileA] 1000 (initGenState 0)).2.calls =
      [⟨commit_system_prompt exCfgConv,
        commit_user_prompt (diff_files_to_string [exFileA]) exCfgConv,
        ⟨exCfgConv.max_output_tokens, exCfgConv.temperature⟩⟩]
    ∧ diff_files_to_string [exFileA] =
        List.intercalate ['\n'] ([exFileA].map DiffFile.content) :=
  single_shot_one_call exProvOk exCfgConv [exFileA] 1000 0 (by decide) (by decide)

/-- Whether an attempt outcome triggers the retry path: a failed network
send, or an HTTP status that is not a success and satisfies `should_retry`
(429, any 5xx, or 408). -/
def attemptRetried : SendOutcome → Bool
  | .sendFailed _ => true
  | .got resp => !(status_is_success resp.status) && should_retry resp.status

/-- The value `send_with_retries` produces from an attempt that is not
retried: the parsed body on a success status, and the status error
otherwise. -/
def terminalResult : SendOutcome → CoreResult Val
  | .sendFailed msg => .error (.provider (openaiReqFailed msg))
  | .got resp =>
    if status_is_success resp.status then
      match resp.parsed with
      | .ok v => .ok v
      | .error m => .error (.http m)
    else .error (.provider (openaiErrBody resp.status resp.body))

/-- The error recorded for a retried attempt. -/
def errOfOutcome : SendOutcome → CoreError
  | .sendFailed msg => .provider (openaiReqFailed msg)
  | .got resp => .provider (openaiErrBody resp.status resp.body)

theorem sendGo_terminal (outcomes : Nat → SendOutcome) (jitter : Nat → Nat)
    (attempt r : Nat) (lastErr : Option CoreError)
    (h : attemptRetried (outcomes attempt) = false) :
    sendGo outcomes jitter attempt (r + 1) lastErr =
      (terminalResult (outcomes attempt), 1, []) := by
  cases ho : outcomes attempt with
  | sendFailed msg =>
    rw [ho] at h
    simp [attemptRetried] at h
  | got resp =>
    rw [ho] at h
    simp only [attemptRetried] at h
    by_cases hs : status_is_success resp.status
    · cases hp : resp.parsed <;> simp [sendGo, ho, hs, hp, terminalResult]
    · have hs' : status_is_success resp.status = false := by
        simpa using hs
      rw [hs'] at h
      simp at h
      simp [sendGo, ho, hs', h, terminalResult]

theorem sendGo_retry (outcomes : Nat → SendOutcome) (jitter : Nat → Nat)
    (attempt r : Nat) (lastErr : Option CoreError)
    (h : attemptRetried (outcomes attempt) = true) :
    sendGo outcomes jitter attempt (r + 1) lastErr =
      ((sendGo outcomes jitter (attempt + 1) r (some (errOfOutcome (outcomes attempt)))).1,
       (sendGo outcomes jitter (attempt + 1) r (some (errOfOutcome (outcomes attempt)))).2.1 + 1,
       backoff_delay attempt 200 2000 (jitter attempt) ::
         (sendGo outcomes jitter (attempt + 1) r
           (some (errOfOutcome (outcomes attempt)))).2.2) := by
  cases ho : outcomes attempt with
  | sendFailed msg => simp [sendGo, ho, errOfOutcome]
  | got resp =>
    rw [ho] at h
    simp only [attemptRetried] at h
    rcases Bool.and_eq_true_iff.mp h with ⟨hns, hr⟩
    have hs : status_is_success resp.status = false := by
      simpa using hns
    simp [sendGo, ho, hs, hr, errOfOutcome]

theorem backoff_delay_le (attempt j : Nat) (hjle : j ≤ 200) :
    backoff_delay attempt 200 2000 j ≤ 2200 := by
  simp only [backoff_delay]
  have h1 : min (200 * 2 ^ attempt) 2000 ≤ 2000 := Nat.min_le_right _ _
  omega

/-- C7: the backend client makes between 1 and 3 attempts per call; every
non-final attempt was retry-triggering (HTTP 429, 5xx, request-timeout
408, or a failed network send); stopping before the attempt cap means the
final attempt was terminal; a terminal attempt (in particular any other
4xx) ends the loop at once with the attempt's own result; and each backoff
delay is 200ms doubled per attempt, capped at 2000ms, plus the sampled
jitter of at most the 200ms base delay. -/
theorem send_with_retries_spec (outcomes : Nat → SendOutcome) (jitter : Nat → Nat)
    (hj : ∀ i, jitter i ≤ 200) :
    1 ≤ (send_with_retries outcomes jitter).2.1
    ∧ (send_with_retries outcomes jitter).2.1 ≤ 3
    ∧ (∀ i, i + 1 < (send_with_retries outcomes jitter).2.1 →
        attemptRetried (outcomes i) = true)
    ∧ ((send_with_retries outcomes jitter).2.1 < 3 →
        attemptRetried (outcomes ((send_with_retries outcomes jitter).2.1 - 1)) = false)
    ∧ (attemptRetried (outcomes ((send_with_retries outcomes jitter).2.1 - 1)) = false →
        (send_with_retries outcomes jitter).1 =
          terminalResult (outcomes ((send_with_retries outcomes jitter).2.1 - 1)))
    ∧ (∀ i, i < (send_with_retries outcomes jitter).2.1 →
        attemptRetried (outcomes i) = false →
        (send_with_retries outcomes jitter).2.1 = i + 1)
    ∧ (send_with_retries outcomes jitter).2.2 =
        (List.range (send_with_retries outcomes jitter).2.2.length).map
          (fun i => min (200 * 2 ^ i) 2000 + jitter i)
    ∧ (∀ d ∈ (send_with_retries outcomes jitter).2.2, d ≤ 2200) := by
  unfold send_with_retries
  by_cases h0 : attemptRetried (outcomes 0) = true
  · by_cases h1 : attemptRetried (outcomes 1) = true
    · by_cases h2 : attemptRetried (outcomes 2) = true
      · have heq : sendGo outcomes jitter 0 3 none =
            (.error (errOfOutcome (outcomes 2)), 3,
              [backoff_delay 0 200 2000 (jitter 0),
               backoff_delay 1 200 2000 (jitter 1),
               backoff_delay 2 200 2000 (jitter 2)]) := by
          rw [show (3 : Nat) = 2 + 1 from rfl, sendGo_retry outcomes jitter 0 2 none h0,
            show (2 : Nat) = 1 + 1 from rfl, sendGo_retry outcomes jitter 1 1 _ h1,
            show (1 : Nat) = 0 + 1 from rfl, sendGo_retry outcomes jitter 2 0 _ h2]
          simp [sendGo]
        rw [heq]
        refine ⟨by simp, by simp, ?_, ?_, ?_, ?_, ?_, ?_⟩
        · intro i hi
          simp at hi
          have hcase : i = 0 ∨ i = 1 := by omega
          rcases hcase with rfl | rfl
          · exact h0
          · exact h1
        · intro hlt
          simp at hlt
        · intro hterm
          simp [h2] at hterm
        · intro i hi hterm
          simp at hi
          have hcase : i = 0 ∨ i = 1 ∨ i = 2 := by omega
          rcases hcase with rfl | rfl | rfl
          · rw [h0] at hterm; simp at hterm
          · rw [h1] at hterm; simp at hterm
          · rfl
        · simp [backoff_delay, List.range_succ]
        · intro d hd
          simp at hd
          rcases hd with hd | hd | hd <;> subst hd <;>
            exact backoff_delay_le _ _ (hj _)
      · have heq : sendGo outcomes jitter 0 3 none =
            (terminalResult (outcomes 2), 3,
              [backoff_delay 0 200 2000 (jitter 0),
               backoff_delay 1 200 2000 (jitter 1)]) := by
          rw [show (3 : Nat) = 2 + 1 from rfl, sendGo_retry outcomes jitter 0 2 none h0,
            show (2 : Nat) = 1 + 1 from rfl, sendGo_retry outcomes jitter 1 1 _ h1,
            show (1 : Nat) = 0 + 1 from rfl,
            sendGo_terminal outcomes jitter 2 0 _ (by simpa using h2)]
        rw [heq]
        refine ⟨by simp, by simp, ?_, ?_, ?_, ?_, ?_, ?_⟩
        · intro i hi
          simp at hi
          have hcase : i = 0 ∨ i = 1 := by omega
          rcases hcase with rfl | rfl
          · exact h0
          · exact h1
        · intro hlt
          simp at hlt
        · intro _
          simp
        · intro i hi hterm
          simp at hi
          have hcase : i = 0 ∨ i = 1 ∨ i = 2 := by omega
          rcases hcase with rfl | rfl | rfl
          · rw [h0] at hterm; simp at hterm
          · rw [h1] at hterm; simp at hterm
          · rfl
        · simp [backoff_delay, List.range_succ]
        · intro d hd
          simp at hd
          rcases hd with hd | hd <;> subst hd <;>
            exact backoff_delay_le _ _ (hj _)
    · have heq : sendGo outcomes jitter 0 3 none =
          (terminalResult (outcomes 1), 2, [backoff_delay 0 200 2000 (jitter 0)]) := by
        rw [show (3 : Nat) = 2 + 1 from rfl, sendGo_retry outcomes jitter 0 2 none h0,
          show (2 : Nat) = 1 + 1 from rfl,
          sendGo_terminal outcomes jitter 1 1 _ (by simpa using h1)]
      rw [heq]
      refine ⟨by simp, by simp, ?_, ?_, ?_, ?_, ?_, ?_⟩
      · intro i hi
        simp at hi
        have hcase : i = 0 := by omega
        subst hcase
        exact h0
      · intro _
        simpa using h1
      · intro _
        simp
      · intro i hi hterm
        simp at hi
        have hcase : i = 0 ∨ i = 1 := by omega
        rcases hcase with rfl | rfl
        · rw [h0] at hterm; simp at hterm
        · rfl
      · simp [backoff_delay, List.range_succ]
      · intro d hd
        simp at hd
        subst hd
        exact backoff_delay_le _ _ (hj _)
  · have heq : sendGo outcomes jitter 0 3 none = (terminalResult (outcomes 0), 1, []) := by
      rw [show (3 : Nat) = 2 + 1 from rfl,
        sendGo_terminal outcomes jitter 0 2 none (by simpa using h0)]
    rw [heq]
    refine ⟨by simp, by simp, ?_, ?_, ?_, ?_, ?_, ?_⟩
    · intro i hi
      simp at hi
    · intro _
      simpa using h0
    · intro _
      simp
    · intro i hi _
      simp at hi
      simp [hi]
    · simp
    · intro d hd
      simp at hd

theorem warnOmitted_head (p : Str) (n : Nat) : (warnOmitted p n).head? = some 'd' := rfl

theorem warnTruncatedFor_head (p : Str) : (warnTruncatedFor p).head? = some 'd' := rfl

theorem warnOnlyFirst_head (n : Nat) : (warnOnlyFirst n).head? = some 'o' := rfl

theorem collectLoop_length (git : GitBackend) (config : EffectiveConfig)
    (ignore : IgnoreMatcher) :
    ∀ (stats : List GitFileStat) (files : List DiffFile) (warns : List Str)
      (out : List DiffFile × List Str × Bool),
      collectLoop git config ignore stats files warns = .ok out →
      files.length ≤ config.max_files →
      out.1.length ≤ config.max_files := by
  intro stats
  induction stats with
  | nil =>
    intro files warns out h hle
    simp only [collectLoop, Except.ok.injEq] at h
    rw [← h]
    exact hle
  | cons stat rest ih =>
    intro files warns out h hle
    simp only [collectLoop] at h
    by_cases hful : config.max_files ≤ files.length
    · rw [if_pos hful] at h
      simp only [Except.ok.injEq] at h
      rw [← h]
      exact hle
    · rw [if_neg hful] at h
      have hlt : files.length < config.max_files := Nat.lt_of_not_le hful
      by_cases hbin : stat.is_binary = true
      · rw [if_pos hbin] at h
        exact ih files warns out h hle
      · rw [if_neg hbin] at h
        by_cases hign : ignore stat.path = true
        · rw [if_pos hign] at h
          exact ih files warns out h hle
        · rw [if_neg hign] at h
          by_cases hbig : config.max_file_lines < stat.additions + stat.deletions
          · rw [if_pos hbig] at h
            refine ih _ _ _ h ?_
            simpa using hlt
          · rw [if_neg hbig] at h
            split at h
            · simp at h
            · rename_i diff heq
              by_cases hemp :
                  (trim (truncate_lines diff.content config.max_file_lines).1).isEmpty = true
              · rw [if_pos hemp] at h
                exact ih files warns out h hle
              · rw [if_neg hemp] at h
                refine ih _ _ _ h ?_
                simpa using hlt

theorem collectLoop_warn_mem (git : GitBackend) (config : EffectiveConfig)
    (ignore : IgnoreMatcher) :
    ∀ (stats : List GitFileStat) (files : List DiffFile) (warns : List Str)
      (out : List DiffFile × List Str × Bool),
      collectLoop git config ignore stats files warns = .ok out →
      ∀ w ∈ out.2.1, w ∈ warns ∨ w.head? = some 'd' := by
  intro stats
  induction stats with
  | nil =>
    intro files warns out h w hw
    simp only [collectLoop, Except.ok.injEq] at h
    rw [← h] at hw
    exact Or.inl hw
  | cons stat rest ih =>
    intro files warns out h w hw
    simp only [collectLoop] at h
    by_cases hful : config.max_files ≤ files.length
    · rw [if_pos hful] at h
      simp only [Except.ok.injEq] at h
      rw [← h] at hw
      exact Or.inl hw
    · rw [if_neg hful] at h
      by_cases hbin : stat.is_binary = true
      · rw [if_pos hbin] at h
        exact ih files warns out h w hw
      · rw [if_neg hbin] at h
        by_cases hign : ignore stat.path = true
        · rw [if_pos hign] at h
          exact ih files warns out h w hw
        · rw [if_neg hign] at h
          by_cases hbig : config.max_file_lines < stat.additions + stat.deletions
          · rw [if_pos hbig] at h
            rcases ih _ _ _ h w hw with hmem | hd
            · rcases List.mem_append.mp hmem with hmem | hmem
              · exact Or.inl hmem
              · simp only [List.mem_singleton] at hmem
                subst hmem
                exact Or.inr (warnOmitted_head _ _)
            · exact Or.inr hd
          · rw [if_neg hbig] at h
            split at h
            · simp at h
            · rename_i diff heq
              by_cases hemp :
                  (trim (truncate_lines diff.content config.max_file_lines).1).isEmpty = true
              · rw [if_pos hemp] at h
                exact ih files warns out h w hw
              · rw [if_neg hemp] at h
                rcases ih _ _ _ h w hw with hmem | hd
                · rcases List.mem_append.mp hmem with hmem | hmem
                  · exact Or.inl hmem
                  · by_cases htr : (diff.truncated ||
                        (truncate_lines diff.content config.max_file_lines).2) = true
                    · rw [if_pos htr] at hmem
                      simp only [List.mem_singleton] at hmem
                      subst hmem
                      exact Or.inr (warnTruncatedFor_head _)
                    · rw [if_neg htr] at hmem
                      simp at hmem
                · exact Or.inr hd

theorem collectLoop_no_limit_warn (git : GitBackend) (config : EffectiveConfig)
    (ignore : IgnoreMatcher) (stats : List GitFileStat)
    (out : List DiffFile × List Str × Bool)
    (h : collectLoop git config ignore stats [] [] = .ok out) :
    warnOnlyFirst config.max_files ∉ out.2.1 := by
  intro hmem
  rcases collectLoop_warn_mem git config ignore stats [] [] out h _ hmem with hin | hd
  · simp at hin
  · rw [warnOnlyFirst_head] at hd
    simp at hd

/-- C8: for every input list of change statistics, the collector produces
at most `max_files` AI-context units; the limit warning appears at most
once; and it appears exactly when the loop stopped accepting units because
`max_files` units had accumulated (the loop's `hit_limit` flag) — one
summary warning, not one per skipped file. -/
theorem collector_cap_single_warning (git : GitBackend) (config : EffectiveConfig)
    (ignore : IgnoreMatcher) (ctx : DiffContext)
    (h : collect_diff_context git config ignore = .ok ctx) :
    ctx.ai_files.length ≤ config.max_files
    ∧ List.count (warnOnlyFirst config.max_files) ctx.warnings ≤ 1
    ∧ (∀ stats files warns hit, git.staged_numstat = .ok stats →
        collectLoop git config ignore stats [] [] = .ok (files, warns, hit) →
        List.count (warnOnlyFirst config.max_files) ctx.warnings =
          if hit then 1 else 0) := by
  simp only [collect_diff_context] at h
  split at h
  · simp at h
  · rename_i stats hns
    by_cases hempz : stats.isEmpty = true
    · rw [if_pos hempz] at h
      simp only [Except.ok.injEq] at h
      have hstats : stats = [] := by simpa [List.isEmpty_iff] using hempz
      refine ⟨by rw [← h]; simp, by rw [← h]; simp, ?_⟩
      intro stats' files warns hit hns' hloop
      rw [hns] at hns'
      simp only [Except.ok.injEq] at hns'
      rw [← hns', hstats] at hloop
      simp only [collectLoop, Except.ok.injEq, Prod.mk.injEq] at hloop
      rw [← hloop.2.2, ← h]
      simp
    · rw [if_neg hempz] at h
      split at h
      · simp at h
      · rename_i files warns hit hloop
        simp only [Except.ok.injEq] at h
        have hcnt : List.count (warnOnlyFirst config.max_files) ctx.warnings =
            if hit then 1 else 0 := by
          rw [← h]
          show List.count (warnOnlyFirst config.max_files)
            (warns ++ if hit = true then [warnOnlyFirst config.max_files] else []) =
            if hit then 1 else 0
          rw [List.count_append]
          have hno : warnOnlyFirst config.max_files ∉ warns :=
            collectLoop_no_limit_warn git config ignore stats (files, warns, hit) hloop
          rw [List.count_eq_zero.mpr hno]
          by_cases hhit : hit = true
          · simp [hhit]
          · simp [hhit]
        refine ⟨?_, ?_, ?_⟩
        · rw [← h]
          exact collectLoop_length git config ignore stats [] []
            (files, warns, hit) hloop (Nat.zero_le _)
        · rw [hcnt]
          by_cases hhit : hit = true <;> simp [hhit]
        · intro stats' files' warns' hit' hns' hloop'
          rw [hns] at hns'
          simp only [Except.ok.injEq] at hns'
          rw [← hns'] at hloop'
          rw [hloop] at hloop'
          simp only [Except.ok.injEq, Prod.mk.injEq] at hloop'
          rw [hcnt, hloop'.2.2]

def exStatA : GitFileStat := ⟨['a'], 1, 0, false⟩

def exStatB : GitFileStat := ⟨['b'], 1, 0, false⟩

def exGitCap : GitBackend := ⟨.ok [exStatA, exStatB], fun _ _ => .ok ⟨['+', 'x'], false⟩⟩

def exCfgCap : EffectiveConfig :=
  ⟨false, false, false, none, 20, 6000, 2048, 200000, 2000, 4, 1, 2⟩

def exIgnoreNone : IgnoreMatcher := fun _ => false

def exCtxCap : DiffContext :=
  ⟨[['a'], ['b']], [⟨['a'], ['+', 'x'], false, false, 1, 0, 1⟩], [warnOnlyFirst 1]⟩

/-- Witness for C8: two staged files with a one-file cap — one unit is
collected and exactly one limit warning is appended. -/
theorem collector_cap_single_warning_witness :
    exCtxCap.ai_files.length ≤ exCfgCap.max_files
    ∧ List.count (warnOnlyFirst exCfgCap.max_files) exCtxCap.warnings ≤ 1
    ∧ (∀ stats files warns hit, exGitCap.staged_numstat = .ok stats →
        collectLoop exGitCap exCfgCap exIgnoreNone stats [] [] = .ok (files, warns, hit) →
        List.count (warnOnlyFirst exCfgCap.max_files) exCtxCap.warnings =
          if hit then 1 else 0) :=
  collector_cap_single_warning exGitCap exCfgCap exIgnoreNone exCtxCap (by decide)

def exResp500 : HttpResponse := ⟨500, ['e'], .error ['m']⟩

def exResp404 : HttpResponse := ⟨404, ['f'], .error ['m']⟩

def exOutcomes : Nat → SendOutcome :=
  fun i => if i = 0 then .got exResp500 else .got exResp404

def exJitter : Nat → Nat := fun _ => 7

/-- Witness for C7: a 500 response followed by a 404 response, with a
fixed jitter sample of 7ms. -/
theorem send_with_retries_spec_witness :
    1 ≤ (send_with_retries exOutcomes exJitter).2.1
    ∧ (send_with_retries exOutcomes exJitter).2.1 ≤ 3
    ∧ (∀ d ∈ (send_with_retries exOutcomes exJitter).2.2, d ≤ 2200) := by
  have h := send_with_retries_spec exOutcomes exJitter (fun i => by simp [exJitter])
  exact ⟨h.1, h.2.1, h.2.2.2.2.2.2.2⟩

theorem sanitize_message_nil (config : EffectiveConfig) (fb : Str) :
    sanitize_message [] config fb = fb := by
  have e1 : trim_quotes ([] : Str) = [] := rfl
  have e2 : trim ([] : Str) = [] := rfl
  have e3 : trim (firstLine ([] : Str)) = [] := rfl
  have e4 : removeTicks (replaceTicks3 ([] : Str)) = [] := rfl
  have e5 : conventional_is_match ([] : Str) = false := by decide
  have e6 : rustLines ([] : Str) = [] := rfl
  by_cases hc : config.conventional = true <;> by_cases hl : config.one_line = true <;>
    simp [sanitize_message, hc, hl, e1, e2, e3, e4, e5, e6]

/-- C10: with a provider present, every produced outcome has
`used_fallback` true exactly when its (sanitized) message is string-equal
to the deterministic fallback for the collected paths — including the case
of a successful generation that happens to equal the fallback. -/
theorem used_fallback_iff (git : GitBackend) (p : ProviderModel) (config : EffectiveConfig)
    (ignore : IgnoreMatcher) (now : Nat) (o : PipelineOutcome) (st : GenState)
    (h : generate_commit_message git (some p) config ignore now = .ok (.message o, st)) :
    ∃ ctx, collect_diff_context git config ignore = .ok ctx ∧
      (o.used_fallback = true ↔ o.message = fallback_message ctx.all_paths config) := by
  simp only [generate_commit_message] at h
  split at h
  · simp at h
  · rename_i ctx hctx
    refine ⟨ctx, hctx, ?_⟩
    by_cases hp0 : ctx.all_paths.isEmpty = true
    · rw [if_pos hp0] at h
      simp at h
    · rw [if_neg hp0] at h
      by_cases hai : ctx.ai_files.isEmpty = true
      · rw [if_pos hai] at h
        simp only [Except.ok.injEq, Prod.mk.injEq, PipelineResult.message.injEq] at h
        rw [← h.1]
        simp
      · rw [if_neg hai] at h
        split at h
        · rename_i m st2 hgen
          simp only [finishOutcome, Except.ok.injEq, Prod.mk.injEq,
            PipelineResult.message.injEq] at h
          rw [← h.1]
          simp
        · rename_i e st2 hgen
          simp only [finishOutcome, Except.ok.injEq, Prod.mk.injEq,
            PipelineResult.message.injEq] at h
          rw [← h.1]
          simp

def exFbA : Str := "update a".toList

def exGitOne : GitBackend := ⟨.ok [⟨['a'], 1, 0, false⟩], fun _ _ => .ok ⟨['+', 'x'], false⟩⟩

def exCfgPlain : EffectiveConfig :=
  ⟨false, false, false, none, 20, 6000, 2048, 200000, 2000, 4, 40, 2⟩

def exProvFb : ProviderModel := fun _ => ⟨0, .ok exFbA⟩

def exOutcomeEq : PipelineOutcome := ⟨exFbA, true, []⟩

def exStEq : GenState :=
  ⟨0, [⟨commit_system_prompt exCfgPlain,
    commit_user_prompt (diff_files_to_string [⟨['a'], ['+', 'x'], false, false, 1, 0, 1⟩])
      exCfgPlain, ⟨2048, 2⟩⟩], 1⟩

set_option maxRecDepth 4000 in
/-- Witness for C10: the backend succeeds and returns exactly the fallback
text `update a`; the outcome reports `used_fallback = true` although no
failure occurred. -/
theorem used_fallback_iff_witness :
    ∃ ctx, collect_diff_context exGitOne exCfgPlain exIgnoreNone = .ok ctx ∧
      (exOutcomeEq.used_fallback = true ↔
        exOutcomeEq.message = fallback_message ctx.all_paths exCfgPlain) :=
  used_fallback_iff exGitOne exProvFb exCfgPlain exIgnoreNone 0 exOutcomeEq exStEq (by decide)

theorem doCall_fail (p : ProviderModel) (deadline : Nat) (system user : Str)
    (req : ProviderRequest) (st : GenState)
    (hf : ((p st.idx).result).isOk = false) :
    ∃ e, (doCall p deadline system user req st).1 = .error e := by
  simp only [doCall, call_with_deadline]
  by_cases h1 : deadline ≤ st.now
  · rw [if_pos h1]
    exact ⟨.timeout 0, rfl⟩
  · rw [if_neg h1]
    by_cases h2 : deadline - st.now < (p st.idx).duration
    · rw [if_pos h2]
      exact ⟨.timeout (secsOf (deadline - st.now)), rfl⟩
    · rw [if_neg h2]
      cases hr : (p st.idx).result with
      | ok s => rw [hr] at hf; simp [Except.isOk, Except.toBool] at hf
      | error e => exact ⟨e, by simp [hr]⟩

theorem summarizeGo_all_none (p : ProviderModel) (config : EffectiveConfig)
    (deadline mft : Nat) (hfail : ∀ i, ((p i).result).isOk = false) :
    ∀ (files : List DiffFile) (st : GenState),
      ∀ e ∈ (summarizeGo p config deadline mft files st).1, e.2 = none := by
  intro files
  induction files with
  | nil =>
    intro st e he
    simp [summarizeGo] at he
  | cons file rest ih =>
    intro st e he
    simp only [summarizeGo] at he
    by_cases hemp : (trim (truncate_to_tokens file.content mft)).isEmpty = true
    · rw [if_pos hemp] at he
      rcases List.mem_cons.mp he with he | he
      · rw [he]
      · exact ih st e he
    · rw [if_neg hemp] at he
      rcases List.mem_cons.mp he with he | he
      · rcases doCall_fail p deadline summary_system_prompt
          (summary_user_prompt file.path (truncate_to_tokens file.content mft))
          ⟨config.max_output_tokens, config.temperature⟩ st (hfail st.idx) with ⟨err, herr⟩
        rw [he, herr]
      · exact ih _ e he

theorem summarize_all_fail (p : ProviderModel) (config : EffectiveConfig)
    (files : List DiffFile) (deadline : Nat) (st : GenState)
    (hfail : ∀ i, ((p i).result).isOk = false) :
    summarize_then_commit p config files deadline st =
      (.ok [], (summarizeGo p config deadline
        (min config.max_input_tokens 2000) files st).2) := by
  simp only [summarize_then_commit]
  have hcomb : ((summarizeGo p config deadline (min config.max_input_tokens 2000)
      files st).1).filterMap
        (fun e => e.2.map (fun s => e.1 ++ ": ".toList ++ trim s)) = [] := by
    rw [List.filterMap_eq_nil_iff]
    intro e he
    rw [summarizeGo_all_none p config deadline (min config.max_input_tokens 2000)
      hfail files st e he]
    rfl
  rw [hcomb]
  simp

/-- C2 (amended): if the fan-out path is taken and every per-unit
summarization call fails, the pipeline outcome has `used_fallback = true`
and its message is the deterministic fallback; however the failures are
only logged as trace warnings — nothing is appended to the outcome's
warnings list, which remains exactly the collector's warnings (and may be
empty). -/
theorem fanout_all_fail (git : GitBackend) (p : ProviderModel) (config : EffectiveConfig)
    (ignore : IgnoreMatcher) (now : Nat) (ctx : DiffContext)
    (hctx : collect_diff_context git config ignore = .ok ctx)
    (hpaths : ctx.all_paths.isEmpty = false)
    (hai : ctx.ai_files.isEmpty = false)
    (hbig : config.max_input_tokens < (ctx.ai_files.map DiffFile.token_estimate).sum)
    (hfail : ∀ i, ((p i).result).isOk = false) :
    ∃ st, generate_commit_message git (some p) config ignore now =
      .ok (.message ⟨fallback_message ctx.all_paths config, true, ctx.warnings⟩, st) := by
  refine ⟨(summarizeGo p config (now + config.timeout_secs * 1000)
    (min config.max_input_tokens 2000) ctx.ai_files (initGenState now)).2, ?_⟩
  have hgen : generate_with_provider p config ctx.ai_files
      (now + config.timeout_secs * 1000) (initGenState now) =
      (.ok [], (summarizeGo p config (now + config.timeout_secs * 1000)
        (min config.max_input_tokens 2000) ctx.ai_files (initGenState now)).2) := by
    simp only [generate_with_provider]
    rw [if_neg (Nat.not_le.mpr hbig)]
    exact summarize_all_fail p config ctx.ai_files (now + config.timeout_secs * 1000)
      (initGenState now) hfail
  simp only [generate_commit_message, hctx]
  rw [if_neg (by simp [hpaths]), if_neg (by simp [hai]), hgen]
  simp only [finishOutcome, sanitize_message_nil]
  simp

/-- Projection of a pipeline run to its outcome (when one was produced). -/
def pipelineOutcomeOf : CoreResult (PipelineResult × GenState) → Option PipelineOutcome
  | .ok (.message o, _) => some o
  | _ => none

/-- Projection of a pipeline run to the number of backend calls made. -/
def pipelineCallsOf : CoreResult (PipelineResult × GenState) → Option Nat
  | .ok (_, st) => some st.calls.length
  | _ => none

def exAbcd : Str := ['a', 'b', 'c', 'd']

def exGitTwo : GitBackend :=
  ⟨.ok [⟨['a'], 1, 0, false⟩, ⟨['b'], 1, 0, false⟩], fun _ _ => .ok ⟨exAbcd, false⟩⟩

def exCfgTiny : EffectiveConfig :=
  ⟨false, false, false, none, 20, 1, 2048, 200000, 2000, 4, 40, 2⟩

def exProvFail : ProviderModel := fun _ => ⟨0, .error (.provider ['x'])⟩

def exFbTwo : Str := "update a, b".toList

def exCtxTwo : DiffContext :=
  ⟨[['a'], ['b']],
   [⟨['a'], exAbcd, false, false, 1, 0, 1⟩, ⟨['b'], exAbcd, false, false, 1, 0, 1⟩], []⟩

/-- C2 counterexample: a two-unit fan-out in which both summarization
calls fail (the provider always errors) yet the resulting outcome's
warnings list is empty — the claim's "contains at least one warning" is
false — while the message is the fallback and `used_fallback` is true.
Both units were actually dispatched (two backend calls were made). -/
theorem fanout_all_fail_counterexample :
    pipelineOutcomeOf (generate_commit_message exGitTwo (some exProvFail)
      exCfgTiny exIgnoreNone 0) = some ⟨exFbTwo, true, []⟩
    ∧ pipelineCallsOf (generate_commit_message exGitTwo (some exProvFail)
        exCfgTiny exIgnoreNone 0) = some 2 := by
  constructor
  · decide
  · decide

/-- Witness for C2 at the same concrete input, through the amended
theorem's hypotheses. -/
theorem fanout_all_fail_witness :
    ∃ st, generate_commit_message exGitTwo (some exProvFail) exCfgTiny exIgnoreNone 0 =
      .ok (.message ⟨fallback_message exCtxTwo.all_paths exCfgTiny, true,
        exCtxTwo.warnings⟩, st) :=
  fanout_all_fail exGitTwo exProvFail exCfgTiny exIgnoreNone 0 exCtxTwo
    (by decide) (by decide) (by decide) (by decide) (fun _ => rfl)

/-- The conditions under which a string is a fixed point of the sanitizer:
trimmed, free of backticks and double quotes, non-empty, single-line when
the one-line policy applies, and conventional-matching when the
conventional policy applies. -/
def CleanStable (config : EffectiveConfig) (y : Str) : Prop :=
  trim y = y ∧ btChar ∉ y ∧ quoteChar ∉ y ∧ y ≠ [] ∧
  (config.one_line = true → '\n' ∉ y) ∧
  (config.conventional = true → conventional_is_match (trim (firstLine y)) = true)

/-- The tail of `sanitize_message` after quote-trimming and the one-line
cut: fence removal, the conventional check against `cleaned`, and the
final empty-fallback substitution. -/
def sanitizeTail (config : EffectiveConfig) (fb cleaned m1 : Str) : Str :=
  let message := removeTicks (replaceTicks3 m1)
  let message :=
    if config.conventional then
      if conventional_is_match (trim (firstLine message)) then message
      else
        match (rustLines cleaned).find? (fun l => conventional_is_match (trim l)) with
        | some found => trim found
        | none => fb
    else message
  if message = [] then fb else message

theorem sanitize_message_eq_tail (raw : Str) (config : EffectiveConfig) (fb : Str) :
    sanitize_message raw config fb =
      sanitizeTail config fb (trim_quotes raw)
        (if config.one_line then trim (firstLine (trim (trim_quotes raw)))
         else trim (trim_quotes raw)) := rfl

theorem sanitize_tail_cases (config : EffectiveConfig) (fb cleaned m1 : Str)
    (hbtm : btChar ∉ m1) (hqm : quoteChar ∉ m1) (htrm : trim m1 = m1)
    (hnlm : config.one_line = true → '\n' ∉ m1)
    (hclc : ∀ a ∈ cleaned, a ≠ btChar ∧ a ≠ quoteChar) :
    sanitizeTail config fb cleaned m1 = fb ∨
      CleanStable config (sanitizeTail config fb cleaned m1) := by
  simp only [sanitizeTail, replaceTicks3_eq_self hbtm, removeTicks_eq_self hbtm]
  by_cases hcv : config.conventional = true
  · rw [if_pos hcv]
    by_cases hm : conventional_is_match (trim (firstLine m1)) = true
    · rw [if_pos hm]
      have hm1ne : m1 ≠ [] := by
        intro h0
        rw [h0] at hm
        exact absurd hm (by decide)
      rw [if_neg hm1ne]
      exact Or.inr ⟨htrm, hbtm, hqm, hm1ne, hnlm, fun _ => hm⟩
    · rw [if_neg hm]
      cases hfind : (rustLines cleaned).find? (fun l => conventional_is_match (trim l)) with
      | none =>
        simp only [hfind]
        exact Or.inl (ite_self fb)
      | some found =>
        simp only [hfind]
        have hpred : conventional_is_match (trim found) = true := by
          have h := List.find?_some hfind
          simpa using h
        have hfoundmem : found ∈ rustLines cleaned := List.mem_of_find?_eq_some hfind
        have hnlf : '\n' ∉ trim found := by
          intro h
          exact (rustLines_chars hfoundmem (mem_of_mem_trim h)).2 rfl
        have hbtf : btChar ∉ trim found := by
          intro h
          exact (hclc _ (rustLines_chars hfoundmem (mem_of_mem_trim h)).1).1 rfl
        have hqf : quoteChar ∉ trim found := by
          intro h
          exact (hclc _ (rustLines_chars hfoundmem (mem_of_mem_trim h)).1).2 rfl
        have htne : trim found ≠ [] := by
          intro h0
          rw [h0] at hpred
          exact absurd hpred (by decide)
        rw [if_neg htne]
        refine Or.inr ⟨trim_idem found, hbtf, hqf, htne, fun _ => hnlf, fun _ => ?_⟩
        rw [firstLine_eq_self hnlf (trim_getLast_ne_cr (trim_idem found)), trim_idem]
        exact hpred
  · rw [if_neg hcv]
    by_cases hne : m1 = []
    · rw [if_pos hne]
      exact Or.inl rfl
    · rw [if_neg hne]
      exact Or.inr ⟨htrm, hbtm, hqm, hne, hnlm, fun hc => absurd hc hcv⟩

theorem sanitize_message_cases (raw : Str) (config : EffectiveConfig) (fb : Str)
    (hbt : btChar ∉ raw) (hq : quoteChar ∉ raw) :
    sanitize_message raw config fb = fb ∨
      CleanStable config (sanitize_message raw config fb) := by
  rw [sanitize_message_eq_tail]
  have hcq : trim_quotes raw = trim raw := trim_quotes_eq_trim_of_clean hbt hq
  rw [hcq]
  refine sanitize_tail_cases config fb (trim raw) _ ?_ ?_ ?_ ?_ ?_
  · by_cases h1 : config.one_line = true
    · rw [if_pos h1]
      intro h
      exact hbt (mem_of_mem_trim (mem_of_mem_firstLine (mem_of_mem_trim (trim_idem raw ▸ h))))
    · rw [if_neg h1]
      intro h
      exact hbt (mem_of_mem_trim (trim_idem raw ▸ h))
  · by_cases h1 : config.one_line = true
    · rw [if_pos h1]
      intro h
      exact hq (mem_of_mem_trim (mem_of_mem_firstLine (mem_of_mem_trim (trim_idem raw ▸ h))))
    · rw [if_neg h1]
      intro h
      exact hq (mem_of_mem_trim (trim_idem raw ▸ h))
  · by_cases h1 : config.one_line = true
    · rw [if_pos h1]
      exact trim_idem _
    · rw [if_neg h1]
      exact trim_idem _
  · intro h1
    rw [if_pos h1]
    intro h
    exact firstLine_no_nl (mem_of_mem_trim h)
  · intro a ha
    have haraw : a ∈ raw := mem_of_mem_trim ha
    exact ⟨fun he => hbt (he ▸ haraw), fun he => hq (he ▸ haraw)⟩

theorem sanitize_message_fix (y : Str) (config : EffectiveConfig) (fb : Str)
    (htr : trim y = y) (hbt : btChar ∉ y) (hq : quoteChar ∉ y) (hne : y ≠ [])
    (hol : config.one_line = true → '\n' ∉ y)
    (hcv : config.conventional = true →
      conventional_is_match (trim (firstLine y)) = true) :
    sanitize_message y config fb = y := by
  have hclean : trim_quotes y = y := by
    rw [trim_quotes_eq_trim_of_clean hbt hq, htr]
  rw [sanitize_message_eq_tail, hclean, htr]
  have hstep1 : (if config.one_line then trim (firstLine y) else y) = y := by
    by_cases h1 : config.one_line = true
    · rw [if_pos h1, firstLine_eq_self (hol h1) (trim_getLast_ne_cr htr), htr]
    · rw [if_neg h1]
  rw [hstep1]
  simp only [sanitizeTail, replaceTicks3_eq_self hbt, removeTicks_eq_self hbt]
  have hstep2 : (if config.conventional then
      (if conventional_is_match (trim (firstLine y)) then y
       else
         match (rustLines y).find? (fun l => conventional_is_match (trim l)) with
         | some found => trim found
         | none => fb)
      else y) = y := by
    by_cases h2 : config.conventional = true
    · rw [if_pos h2, if_pos (hcv h2)]
    · rw [if_neg h2]
  rw [hstep2, if_neg hne]

def exFbStd : Str := "chore: update files".toList

def exTickInput : Str := [btChar, ' ', btChar, ' ', 'x']

/-- C4 counterexample: with both policies off and the fallback held fixed,
the input consisting of backtick, space, backtick, space, `x` sanitizes to
`" x"` (stripping the leading backtick exposes a space the earlier trim
can no longer remove), and a second sanitize pass yields `"x"` — so
`sanitize(sanitize(x))` differs from `sanitize(x)`. -/
theorem sanitize_idempotent_counterexample :
    sanitize_message (sanitize_message exTickInput exCfgPlain exFbStd) exCfgPlain exFbStd ≠
      sanitize_message exTickInput exCfgPlain exFbStd := by decide

/-- C4 (amended): sanitize is idempotent on every input that contains no
backtick and no double-quote character, provided the fallback is itself a
fixed point of sanitize under the same policy (as the pipeline's
synthesized fallback is); for arbitrary inputs idempotence fails, because
removing backticks can expose surrounding whitespace or quote layers that
only a second pass would strip. -/
theorem sanitize_idempotent_on_clean (raw : Str) (config : EffectiveConfig) (fb : Str)
    (hbt : btChar ∉ raw) (hq : quoteChar ∉ raw)
    (hfb : sanitize_message fb config fb = fb) :
    sanitize_message (sanitize_message raw config fb) config fb =
      sanitize_message raw config fb := by
  rcases sanitize_message_cases raw config fb hbt hq with heq | hcs
  · rw [heq, hfb]
  · exact sanitize_message_fix _ config fb hcs.1 hcs.2.1 hcs.2.2.1 hcs.2.2.2.1
      hcs.2.2.2.2.1 hcs.2.2.2.2.2

/-- The sanitizer as the C5 claim describes it for a conventional-policy
configuration: after quote-trimming, the optional one-line cut and fence
removal, keep the message when its (trimmed) first line matches the
conventional-commit pattern; otherwise substitute the first line of the
pre-line-trim cleaned text whose trimmed form matches; if no line matches
return the fallback; and if the result of all steps is empty return the
fallback. -/
def sanitize_conventional_spec (raw : Str) (config : EffectiveConfig) (fb : Str) : Str :=
  let cleaned := trim_quotes raw
  let message := trim cleaned
  let message := if config.one_line then trim (firstLine message) else message
  let message := removeTicks (replaceTicks3 message)
  let message :=
    if conventional_is_match (trim (firstLine message)) then message
    else
      match (rustLines cleaned).find? (fun l => conventional_is_match (trim l)) with
      | some found => trim found
      | none => fb
  if message = [] then fb else message

/-- C5: whenever the conventional policy is set, `sanitize_message`
computes exactly the behaviour described by the claim (kept first-line
match, first matching line of the pre-line-trim cleaned text substituted
otherwise, fallback when no line matches, and fallback for an empty end
result), with the pattern realized by `conventional_is_match`. -/
theorem sanitize_conventional_spec_eq (raw : Str) (config : EffectiveConfig) (fb : Str)
    (hcv : config.conventional = true) :
    sanitize_message raw config fb = sanitize_conventional_spec raw config fb := by
  simp only [sanitize_message, sanitize_conventional_spec, hcv, if_true]

def exHelloW : Str := "hello world".toList

/-- Witness for C5 at the conventional one-line configuration on the
input `hello world`. -/
theorem sanitize_conventional_spec_eq_witness :
    sanitize_message exHelloW exCfgConv exFbStd =
      sanitize_conventional_spec exHelloW exCfgConv exFbStd :=
  sanitize_conventional_spec_eq exHelloW exCfgConv exFbStd (by decide)

def exHello : Str := "hello".toList

/-- Witness for C4 on the clean input `hello` with the conventional
one-line policy and the standard fallback. -/
theorem sanitize_idempotent_on_clean_witness :
    sanitize_message (sanitize_message exHello exCfgConv exFbStd) exCfgConv exFbStd =
      sanitize_message exHello exCfgConv exFbStd :=
  sanitize_idempotent_on_clean exHello exCfgConv exFbStd (by decide) (by decide) (by decide)

/-- Witness for C9 at concrete inputs: the text `"a\nb \nc"` truncated to
2 lines, a non-whitespace text at limit 0, and a whitespace-only text at
limit 0. -/
theorem truncate_lines_spec_witness :
    truncate_lines ['a', '\n', 'b', ' ', '\n', 'c'] 2 = (['a', '\n', 'b'], true)
    ∧ truncate_lines ['x'] 0 = ([], true)
    ∧ truncate_lines ['\t'] 0 = ([], false) := by
  refine ⟨?_, ?_, ?_⟩
  · have h := truncate_lines_spec.1 ['a'] ['b', ' '] ['c']
      (by decide) (by decide) (by decide) (by decide) (by decide) (by decide)
    exact h.trans (by decide)
  · exact truncate_lines_spec.2.1 ['x'] (by decide)
  · exact truncate_lines_spec.2.2 ['\t'] (by decide)

end Gdot
